import Mathlib

/-!
Shallow embedding of the spectral absorption-coefficient engine of pylbl.

Source files embedded:
* `pyrad/lbl/hitran/lines.py` (namespace `lines`)
* `pyrad/lbl/hitran/spectral_lines.py` together with
  `pyrad/lbl/hitran/lorentz.py` (namespace `spectral_lines`)
* `pyrad/lbl/hitran/cross_sections.py` and `pyrad/lbl/hitran/utils.py`
  (namespace `cross_sections`)

Floating-point arrays are idealized as lists of real numbers (rationals for
the purely order/arithmetic cross-section code), and the external
collaborators (total partition function lookup, scipy interpolators) are
parameters of the embedding.
-/

namespace Pylbl

/-! ### numpy.searchsorted

`numpy.searchsorted(a, v, side)` returns, for an ascending-sorted `a`, the
insertion index that keeps `a` sorted: with `side="left"` the number of
elements strictly below `v`, with `side="right"` the number of elements not
above `v`.  Every call site in the embedded code passes an ascending-sorted
array, so we embed the documented semantics directly. -/

def searchsorted_left {α : Type} [LinearOrder α] (xs : List α) (x : α) : ℕ :=
  xs.countP fun y => decide (y < x)

def searchsorted_right {α : Type} [LinearOrder α] (xs : List α) (x : α) : ℕ :=
  xs.countP fun y => decide (y ≤ x)

/-- Counting a downward-closed predicate on a sorted list counts a prefix:
position `i` is below the count iff the predicate holds at `i`. -/
theorem lt_countP_iff_of_sorted {α : Type} [LinearOrder α] (p : α → Bool)
    (hp : ∀ a b : α, a ≤ b → p b = true → p a = true) :
    ∀ (xs : List α), xs.Sorted (· ≤ ·) → ∀ i (hi : i < xs.length),
      (i < xs.countP p ↔ p (xs.get ⟨i, hi⟩) = true)
  | [], _, i, hi => absurd hi (by simp)
  | a :: t, hs, 0, _ => by
    rw [List.sorted_cons] at hs
    rcases hpa : p a with _ | _
    · have ht : t.countP p = 0 := by
        rw [List.countP_eq_zero]
        intro b hb hpb
        exact absurd (hp a b (hs.1 b hb) hpb) (by simp [hpa])
      simp [List.countP_cons, hpa, ht]
    · simp [List.countP_cons, hpa, Nat.succ_pos]
  | a :: t, hs, (i+1), hi => by
    rw [List.sorted_cons] at hs
    have hi' : i < t.length := by simpa using hi
    have ih := lt_countP_iff_of_sorted p hp t hs.2 i hi'
    rcases hpa : p a with _ | _
    · have ht : t.countP p = 0 := by
        rw [List.countP_eq_zero]
        intro b hb hpb
        exact absurd (hp a b (hs.1 b hb) hpb) (by simp [hpa])
      have hcz : (a :: t).countP p = 0 := by simp [List.countP_cons, hpa, ht]
      rw [hcz]
      simp only [List.get_cons_succ]
      constructor
      · intro h
        exact absurd h (Nat.not_lt_zero _)
      · intro h
        exact absurd (hp a _ (hs.1 _ (t.get_mem _ _)) h) (by simp [hpa])
    · simpa [List.countP_cons, hpa, Nat.succ_lt_succ_iff] using ih

/-- Dropping the elements below the left insertion point of `a` keeps exactly
the elements whose key is at least `a` (for a list sorted by the key). -/
theorem drop_countP_eq_filter {α β : Type} [LinearOrder α] (key : β → α) (a : α) :
    ∀ (xs : List β), (xs.map key).Sorted (· ≤ ·) →
      xs.drop (xs.countP fun y => decide (key y < a)) =
        xs.filter fun y => decide (a ≤ key y)
  | [], _ => rfl
  | x :: t, hs => by
    rw [List.map_cons, List.sorted_cons] at hs
    rcases hxa : decide (key x < a) with _ | _
    · have hxa' : a ≤ key x := by simpa using hxa
      have htc : (t.countP fun y => decide (key y < a)) = 0 := by
        rw [List.countP_eq_zero]
        intro b hb
        have : key x ≤ key b := hs.1 _ (List.mem_map_of_mem key hb)
        simp [not_lt.2 (le_trans hxa' this)]
      have htf : (t.filter fun y => decide (a ≤ key y)) = t := by
        rw [List.filter_eq_self]
        intro b hb
        have : key x ≤ key b := hs.1 _ (List.mem_map_of_mem key hb)
        simp [le_trans hxa' this]
      simp [List.countP_cons, hxa, htc, List.filter_cons, hxa', htf]
    · have hxa' : key x < a := by simpa using hxa
      have ih := drop_countP_eq_filter key a t hs.2
      simp [List.countP_cons, hxa, List.filter_cons, not_le.2 hxa', ih]

/-- Taking the elements below the right insertion point of `b` keeps exactly
the elements whose key is at most `b` (for a list sorted by the key). -/
theorem take_countP_eq_filter {α β : Type} [LinearOrder α] (key : β → α) (b : α) :
    ∀ (xs : List β), (xs.map key).Sorted (· ≤ ·) →
      xs.take (xs.countP fun y => decide (key y ≤ b)) =
        xs.filter fun y => decide (key y ≤ b)
  | [], _ => rfl
  | x :: t, hs => by
    rw [List.map_cons, List.sorted_cons] at hs
    rcases hxb : decide (key x ≤ b) with _ | _
    · have hxb' : ¬ key x ≤ b := by simpa using hxb
      have hkey : ∀ c ∈ t, ¬ key c ≤ b := by
        intro c hc h
        have : key x ≤ key c := hs.1 _ (List.mem_map_of_mem key hc)
        exact hxb' (le_trans this h)
      have htc : (t.countP fun y => decide (key y ≤ b)) = 0 := by
        rw [List.countP_eq_zero]
        intro c hc
        simpa using hkey c hc
      have htf : (t.filter fun y => decide (key y ≤ b)) = [] := by
        rw [List.filter_eq_nil_iff]
        intro c hc
        simpa using hkey c hc
      simp [List.countP_cons, hxb, List.filter_cons, htc, htf]
    · have ih := take_countP_eq_filter key b t hs.2
      simp [List.countP_cons, hxb, List.filter_cons, ih]

/-- `pyrad.lbl.tips.TIPS_REFERENCE_TEMPERATURE` [K].
Modelled from the spec: the `pyrad/lbl/tips.py` module is not part of the
source tree; the spec names a fixed "TIPS reference temperature" constant of
296 K used to pre-correct line strengths at construction. -/
def TIPS_REFERENCE_TEMPERATURE : ℝ := 296

namespace lines

/-! ### `pyrad/lbl/hitran/lines.py`

The `SpectralLines` class of `lines.py`, with its parallel numpy arrays
embedded as parallel lists of reals and the external
`TotalPartitionFunction` lookup as a function parameter `q`. -/

/-- Local constant `c2` of `SpectralLines.temperature_correct_line_strength`
in `lines.py` (also in `hitran.py`). -/
noncomputable def c2 : ℝ := -1.4387686

structure SpectralLines where
  v : List ℝ
  s : List ℝ
  en : List ℝ
  iso : List ℤ
  gamma_air : List ℝ
  gamma_self : List ℝ
  n : List ℝ
  delta : List ℝ
  mass : List ℝ
  q : ℝ → ℤ → ℝ

/-- Scalar core of `SpectralLines.temperature_correct_line_strength`:
`q.total_partition_function(t, iso)/(exp(c2*en/t)*(1. - exp(c2*v/t)))`
with the local constant `c2 = -1.4387686`. -/
noncomputable def temperature_correct_line_strength_fn (q : ℝ → ℤ → ℝ) (t : ℝ)
    (iso : ℤ) (en v : ℝ) : ℝ :=
  q t iso / (Real.exp (c2 * en / t) * (1 - Real.exp (c2 * v / t)))

/-- `SpectralLines.temperature_correct_line_strength` applied elementwise to
the parallel `iso`/`en`/`v` arrays (numpy broadcasting). -/
noncomputable def temperature_correct_line_strength (q : ℝ → ℤ → ℝ) (t : ℝ)
    (iso : List ℤ) (en v : List ℝ) : List ℝ :=
  (iso.zip (en.zip v)).map fun x =>
    temperature_correct_line_strength_fn q t x.1 x.2.1 x.2.2

/-- `SpectralLines.correct_line_strengths`:
`self.s[:]*(1./self.temperature_correct_line_strength(...))`. -/
noncomputable def SpectralLines.correct_line_strengths (self : SpectralLines)
    (temperature : ℝ) : List ℝ :=
  List.zipWith (fun a b => a * b) self.s
    ((temperature_correct_line_strength self.q temperature self.iso self.en self.v).map
      fun f => 1 / f)

/-- `SpectralLines.pressure_shift_transition_wavenumbers`:
`self.v[:] + self.delta[:]*pressure`. -/
noncomputable def SpectralLines.pressure_shift_transition_wavenumbers
    (self : SpectralLines) (pressure : ℝ) : List ℝ :=
  List.zipWith (fun vi di => vi + di * pressure) self.v self.delta

/-- `SpectralLines.doppler_broadened_halfwidth`:
`sqrt(log(2))*transition_wavenumber*sqrt(2*kb*temperature/(m*c*c))` with
`m = mass/6.023e23`, `c = 2.99792458e10`, `kb = 1.380658e-16`. -/
noncomputable def doppler_broadened_halfwidth (temperature mass
    transition_wavenumber : ℝ) : ℝ :=
  let m := mass / 6.023e23
  let c := 2.99792458e10
  let kb := 1.380658e-16
  Real.sqrt (Real.log 2) * transition_wavenumber *
    Real.sqrt (2 * kb * temperature / (m * c * c))

/-- `SpectralLines.pressure_broadened_halfwidths`:
`power((296./temperature), self.n[:])*(self.gamma_air[:]*(pressure -
partial_pressure) + self.gamma_self[:]*partial_pressure)`, elementwise over
the parallel `n`/`gamma_air`/`gamma_self` arrays. -/
noncomputable def SpectralLines.pressure_broadened_halfwidths
    (self : SpectralLines) (pressure partial_pressure temperature : ℝ) : List ℝ :=
  (self.n.zip (self.gamma_air.zip self.gamma_self)).map fun x =>
    Real.rpow (296 / temperature) x.1 *
      (x.2.1 * (pressure - partial_pressure) + x.2.2 * partial_pressure)

/-- One line of the per-call working data of
`SpectralLines.absorption_coefficient`: the pressure-shifted center
(`vstar`), the temperature-corrected strength (`s`), the pressure-broadened
halfwidth (`gamma`) and the isotopologue mass, all of which the source
permutes together with the single permutation `inds = vstar.argsort()`. -/
structure WorkLine where
  vstar : ℝ
  s : ℝ
  gamma : ℝ
  mass : ℝ

noncomputable instance workLineLE :
    DecidableRel fun a b : WorkLine => a.vstar ≤ b.vstar :=
  fun a b => inferInstanceAs (Decidable (a.vstar ≤ b.vstar))

instance workLineLETotal : IsTotal WorkLine fun a b : WorkLine => a.vstar ≤ b.vstar :=
  ⟨fun a b => le_total a.vstar b.vstar⟩

instance workLineLETrans : IsTrans WorkLine fun a b : WorkLine => a.vstar ≤ b.vstar :=
  ⟨fun _ _ _ hab hbc => le_trans hab hbc⟩

/-- The per-call working lines of `SpectralLines.absorption_coefficient`
before sorting: `s = self.correct_line_strengths(temperature)`,
`vstar = self.pressure_shift_transition_wavenumbers(pressure)`,
`gamma = self.pressure_broadened_halfwidths(pressure, partial_pressure,
temperature)`, zipped with the stored masses. -/
noncomputable def work_lines (self : SpectralLines)
    (temperature pressure partial_pressure : ℝ) : List WorkLine :=
  let s := self.correct_line_strengths temperature
  let vstar := self.pressure_shift_transition_wavenumbers pressure
  let gamma := self.pressure_broadened_halfwidths pressure partial_pressure temperature
  (vstar.zip (s.zip (gamma.zip self.mass))).map fun x =>
    ⟨x.1, x.2.1, x.2.2.1, x.2.2.2⟩

/-- `inds = vstar.argsort(); vstar_sorted = vstar[inds]; s_sorted = s[inds];
gamma_sorted = gamma[inds]; mass_sorted = self.mass[inds]`: one ascending
sort by `vstar` carrying the per-line data along. -/
noncomputable def sorted_work_lines (self : SpectralLines)
    (temperature pressure partial_pressure : ℝ) : List WorkLine :=
  (work_lines self temperature pressure partial_pressure).insertionSort
    fun a b => a.vstar ≤ b.vstar

/-- The sorted working lines paired with the Doppler halfwidths
`alpha = self.doppler_broadened_halfwidth(temperature, mass_sorted,
vstar_sorted)` (computed from the already-sorted arrays in the source). -/
noncomputable def window_entries (self : SpectralLines)
    (temperature pressure partial_pressure : ℝ) : List (WorkLine × ℝ) :=
  (sorted_work_lines self temperature pressure partial_pressure).map fun w =>
    (w, doppler_broadened_halfwidth temperature w.mass w.vstar)

/-- `SpectralLines.absorption_coefficient` of `lines.py`.  The line-shape
strategy is the parameter `profile`, receiving the per-line `gamma` and
`alpha` halfwidths (the source stores the sorted slices into
`line_profile.gamma`/`line_profile.alpha` and the profile object reads the
ones its physics needs), the grid wavenumber and the shifted line center.
For each grid wavenumber `v` the summation is restricted to the slice
`[l:r]` of the sorted lines with
`l = searchsorted(vstar_sorted, v - cut_off, side="left")` and
`r = searchsorted(vstar_sorted, v + cut_off, side="right")`. -/
noncomputable def SpectralLines.absorption_coefficient (self : SpectralLines)
    (temperature pressure partial_pressure : ℝ) (wavenumber : List ℝ)
    (profile : ℝ → ℝ → ℝ → ℝ → ℝ) (cut_off : ℝ := 25) : List ℝ :=
  let entries := window_entries self temperature pressure partial_pressure
  let vs := entries.map fun e => e.1.vstar
  wavenumber.map fun v =>
    let l := searchsorted_left vs (v - cut_off)
    let r := searchsorted_right vs (v + cut_off)
    (((entries.take r).drop l).map fun e =>
      e.1.s * profile e.1.gamma e.2 v e.1.vstar).sum

/-- `Lorentz.profile` of `line_profiles.py` as a windowed-summation
strategy: `self.gamma/(pi*(self.gamma*self.gamma + (v - v_center)*(v -
v_center)))`; the Doppler halfwidth argument is unused. -/
noncomputable def lorentz_profile (gamma _alpha v v_center : ℝ) : ℝ :=
  gamma / (Real.pi * (gamma * gamma + (v - v_center) * (v - v_center)))

/-- The windowed summation with the window taken CLOSED at both ends, as a
reference point for the boundary-rule claim: at each grid wavenumber `v`
exactly the lines whose shifted center `vstar` satisfies
`v - cut_off ≤ vstar ≤ v + cut_off` contribute. -/
noncomputable def closed_window_absorption (self : SpectralLines)
    (temperature pressure partial_pressure : ℝ) (wavenumber : List ℝ)
    (profile : ℝ → ℝ → ℝ → ℝ → ℝ) (cut_off : ℝ := 25) : List ℝ :=
  let entries := window_entries self temperature pressure partial_pressure
  wavenumber.map fun v =>
    ((entries.filter fun e =>
        decide (v - cut_off ≤ e.1.vstar) && decide (e.1.vstar ≤ v + cut_off)).map
      fun e => e.1.s * profile e.1.gamma e.2 v e.1.vstar).sum

theorem window_entries_key_sorted (self : SpectralLines)
    (temperature pressure partial_pressure : ℝ) :
    ((window_entries self temperature pressure partial_pressure).map
      fun e => e.1.vstar).Sorted (· ≤ ·) := by
  have hs : (sorted_work_lines self temperature pressure partial_pressure).Sorted
      fun a b => a.vstar ≤ b.vstar :=
    List.sorted_insertionSort _ _
  have : ((sorted_work_lines self temperature pressure partial_pressure).map
      WorkLine.vstar).Sorted (· ≤ ·) :=
    List.Pairwise.map WorkLine.vstar (fun _ _ h => h) hs
  simpa [window_entries, List.map_map, Function.comp] using this

/-- C2 (amended): in `lines.py`, `absorption_coefficient` re-sorts the
pressure-shifted line centers ascending, and the strengths (with halfwidths
and masses) are carried along by the same permutation: the sorted working
lines are a permutation of the unsorted working lines and their `vstar`
components are ascending.  (The `spectral_lines.py` variant performs no such
re-sort; see the counterexample.) -/
theorem work_lines_resorted_by_vstar (self : SpectralLines)
    (temperature pressure partial_pressure : ℝ) :
    ((sorted_work_lines self temperature pressure partial_pressure).map
      WorkLine.vstar).Sorted (· ≤ ·) ∧
    (sorted_work_lines self temperature pressure partial_pressure).Perm
      (work_lines self temperature pressure partial_pressure) := by
  constructor
  · exact List.Pairwise.map WorkLine.vstar (fun _ _ h => h)
      (List.sorted_insertionSort _ _)
  · exact List.perm_insertionSort _ _

/-- C1 (amended): the cutoff window of the windowed summation is closed at
BOTH ends: for a nonnegative cutoff, `absorption_coefficient` sums, at each
grid wavenumber `v`, over exactly the lines whose pressure-shifted center
lies in `[v - cut_off, v + cut_off]`; in particular a line exactly `cut_off`
away contributes at both the lower and the upper boundary. -/
theorem absorption_coefficient_closed_window (self : SpectralLines)
    (temperature pressure partial_pressure : ℝ) (wavenumber : List ℝ)
    (profile : ℝ → ℝ → ℝ → ℝ → ℝ) (cut_off : ℝ) (hc : 0 ≤ cut_off) :
    self.absorption_coefficient temperature pressure partial_pressure
        wavenumber profile cut_off =
      closed_window_absorption self temperature pressure partial_pressure
        wavenumber profile cut_off := by
  simp only [SpectralLines.absorption_coefficient, closed_window_absorption]
  apply List.map_congr_left
  intro v _
  set entries := window_entries self temperature pressure partial_pressure with hent
  have hsorted : (entries.map fun e => e.1.vstar).Sorted (· ≤ ·) :=
    window_entries_key_sorted self temperature pressure partial_pressure
  congr 1
  have hr : searchsorted_right (entries.map fun e => e.1.vstar) (v + cut_off) =
      entries.countP fun e => decide (e.1.vstar ≤ v + cut_off) := by
    rw [searchsorted_right, List.countP_map]
    rfl
  have hl : searchsorted_left (entries.map fun e => e.1.vstar) (v - cut_off) =
      entries.countP fun e => decide (e.1.vstar < v - cut_off) := by
    rw [searchsorted_left, List.countP_map]
    rfl
  rw [hr, hl]
  have htake : entries.take (entries.countP fun e => decide (e.1.vstar ≤ v + cut_off)) =
      entries.filter fun e => decide (e.1.vstar ≤ v + cut_off) :=
    take_countP_eq_filter (fun e : WorkLine × ℝ => e.1.vstar) (v + cut_off)
      entries hsorted
  rw [htake]
  have hfs : ((entries.filter fun e => decide (e.1.vstar ≤ v + cut_off)).map
      fun e => e.1.vstar).Sorted (· ≤ ·) :=
    List.Pairwise.sublist (List.Sublist.map _ (List.filter_sublist _)) hsorted
  have hcount : (entries.countP fun e => decide (e.1.vstar < v - cut_off)) =
      ((entries.filter fun e => decide (e.1.vstar ≤ v + cut_off)).countP
        fun e => decide (e.1.vstar < v - cut_off)) := by
    rw [List.countP_filter]
    apply List.countP_congr
    intro e _
    rcases hlt : decide (e.1.vstar < v - cut_off) with _ | _
    · simp
    · have h1 : e.1.vstar < v - cut_off := by simpa using hlt
      have h2 : e.1.vstar ≤ v + cut_off := le_of_lt (lt_of_lt_of_le h1 (by linarith))
      simp [h2]
  rw [hcount]
  have hdrop : (entries.filter fun e => decide (e.1.vstar ≤ v + cut_off)).drop
        ((entries.filter fun e => decide (e.1.vstar ≤ v + cut_off)).countP
          fun e => decide (e.1.vstar < v - cut_off)) =
      (entries.filter fun e => decide (e.1.vstar ≤ v + cut_off)).filter
        fun e => decide (v - cut_off ≤ e.1.vstar) :=
    drop_countP_eq_filter (fun e : WorkLine × ℝ => e.1.vstar) (v - cut_off)
      (entries.filter fun e => decide (e.1.vstar ≤ v + cut_off)) hfs
  rw [hdrop, List.filter_filter]

theorem zipWith_mul_mul_one_div_cancel :
    ∀ (s f : List ℝ), s.length ≤ f.length → (∀ x ∈ f, x ≠ 0) →
      List.zipWith (fun a b => a * b)
        (List.zipWith (fun a b => a * b) s f) (f.map fun x => 1 / x) = s
  | [], _, _, _ => by simp
  | a :: s, [], h, _ => absurd h (by simp)
  | a :: s, b :: f, h, hnz => by
    have hb : b ≠ 0 := hnz b (List.mem_cons_self b f)
    have ih := zipWith_mul_mul_one_div_cancel s f (by simpa using h)
      fun x hx => hnz x (List.mem_cons_of_mem _ hx)
    simp only [List.zipWith_cons_cons, List.map_cons, ih]
    congr 1
    field_simp

/-- C6: the strength-correction round trip.  A `lines.py` `SpectralLines`
built with strengths pre-multiplied by the reference-temperature factor
(`self.s[:] *= self.temperature_correct_line_strength(q,
TIPS_REFERENCE_TEMPERATURE, ...)` in `__init__`), when asked for
`correct_line_strengths` at the query temperature equal to the reference
temperature, divides by the same factor and reproduces the original
pre-normalization strengths exactly (provided the factors are nonzero,
i.e. away from the documented `v ≈ 0` divide-by-zero hazard). -/
theorem correct_line_strengths_roundtrip (s0 en v : List ℝ) (iso : List ℤ)
    (q : ℝ → ℤ → ℝ) (ga gs n d m : List ℝ)
    (hlen : s0.length ≤
      (temperature_correct_line_strength q TIPS_REFERENCE_TEMPERATURE iso en v).length)
    (hnz : ∀ f ∈ temperature_correct_line_strength q TIPS_REFERENCE_TEMPERATURE iso en v,
      f ≠ 0) :
    SpectralLines.correct_line_strengths
      { v := v
        s := List.zipWith (fun a b => a * b) s0
          (temperature_correct_line_strength q TIPS_REFERENCE_TEMPERATURE iso en v)
        en := en, iso := iso, gamma_air := ga, gamma_self := gs, n := n
        delta := d, mass := m, q := q }
      TIPS_REFERENCE_TEMPERATURE = s0 := by
  simp only [SpectralLines.correct_line_strengths]
  exact zipWith_mul_mul_one_div_cancel s0 _ hlen hnz

/-- Concrete witness input for C6: one line with `en = 0`, `v = 1`,
pre-normalization strength `2`, and the constant partition function. -/
noncomputable def roundtrip_example_factors : List ℝ :=
  temperature_correct_line_strength (fun _ _ => 1) TIPS_REFERENCE_TEMPERATURE [1] [0] [1]

/-- C6 witness: the round trip at the concrete one-line input. -/
theorem correct_line_strengths_roundtrip_witness :
    SpectralLines.correct_line_strengths
      { v := [1]
        s := List.zipWith (fun a b => a * b) [2] roundtrip_example_factors
        en := [0], iso := [1], gamma_air := [], gamma_self := [], n := []
        delta := [], mass := [], q := fun _ _ => 1 }
      TIPS_REFERENCE_TEMPERATURE = [2] := by
  apply correct_line_strengths_roundtrip [2] [0] [1] [1] (fun _ _ => 1) [] [] [] [] []
  · simp [temperature_correct_line_strength]
  · intro f hf
    simp only [temperature_correct_line_strength, temperature_correct_line_strength_fn,
      List.zip_cons_cons, List.zip_nil_right, List.map_cons, List.map_nil,
      List.mem_singleton] at hf
    subst hf
    apply div_ne_zero one_ne_zero
    apply mul_ne_zero (Real.exp_ne_zero _)
    rw [sub_ne_zero]
    intro h
    have h0 : c2 * 1 / TIPS_REFERENCE_TEMPERATURE = 0 := (Real.exp_eq_one_iff _).mp h.symm
    rw [div_eq_zero_iff] at h0
    rcases h0 with h0 | h0
    · norm_num [c2] at h0
    · norm_num [TIPS_REFERENCE_TEMPERATURE] at h0

/-- Concrete boundary input: a single line whose pressure-shifted center
`vstar = 25` lies exactly `cut_off = 25` above the only grid wavenumber `0`.
The partition function is chosen so that the temperature-corrected strength
is exactly `1`; `n = 0`, `gamma_air = 1`, `gamma_self = 0` make the
pressure-broadened halfwidth exactly `1` at `T = 296`, `P = 1`, `Pp = 0`. -/
noncomputable def boundary_example : SpectralLines :=
  { v := [25], s := [1], en := [0], iso := [1], gamma_air := [1]
    gamma_self := [0], n := [0], delta := [0], mass := [1]
    q := fun t _ => 1 - Real.exp (c2 * 25 / t) }

theorem boundary_example_work_lines :
    work_lines boundary_example 296 1 0 = [⟨25, 1, 1, 1⟩] := by
  have hne : (1 : ℝ) - Real.exp (c2 * 25 / 296) ≠ 0 := by
    rw [sub_ne_zero]
    intro h
    have h0 : c2 * 25 / 296 = 0 := (Real.exp_eq_one_iff _).mp h.symm
    rw [div_eq_zero_iff] at h0
    rcases h0 with h0 | h0
    · norm_num [c2] at h0
    · norm_num at h0
  have hfac : temperature_correct_line_strength boundary_example.q 296 [1] [0] [25] =
      [1] := by
    simp only [temperature_correct_line_strength, temperature_correct_line_strength_fn,
      boundary_example, List.zip_cons_cons, List.zip_nil_right, List.map_cons,
      List.map_nil]
    rw [show c2 * (0:ℝ) / 296 = 0 by ring, Real.exp_zero, one_mul,
      div_self hne]
  have hs : boundary_example.correct_line_strengths 296 = [1] := by
    simp only [SpectralLines.correct_line_strengths, boundary_example] at hfac ⊢
    rw [hfac]
    norm_num
  have hv : boundary_example.pressure_shift_transition_wavenumbers 1 = [25] := by
    simp [SpectralLines.pressure_shift_transition_wavenumbers, boundary_example]
  have hg : boundary_example.pressure_broadened_halfwidths 1 0 296 = [1] := by
    simp only [SpectralLines.pressure_broadened_halfwidths, boundary_example,
      List.zip_cons_cons, List.zip_nil_right, List.map_cons, List.map_nil]
    norm_num
  have hm : boundary_example.mass = [1] := rfl
  simp only [work_lines]
  rw [hv, hs, hg, hm]
  simp

/-- C1 counterexample: in the call
`boundary_example.absorption_coefficient(296, 1, 0, [0], Lorentz, cut_off=25)`
the only line sits exactly `cut_off` ABOVE the grid wavenumber `0`, yet its
(nonzero) Lorentzian contribution `1/(626*pi)` is included: the upper window
boundary is inclusive, not exclusive as claimed. -/
theorem line_at_upper_cutoff_contributes :
    boundary_example.absorption_coefficient 296 1 0 [0] lorentz_profile 25 =
      [1 / (626 * Real.pi)] ∧ (1 / (626 * Real.pi) : ℝ) ≠ 0 := by
  constructor
  · have hw : sorted_work_lines boundary_example 296 1 0 = [⟨25, 1, 1, 1⟩] := by
      rw [sorted_work_lines, boundary_example_work_lines]
      simp [List.insertionSort, List.orderedInsert]
    have hent : window_entries boundary_example 296 1 0 =
        [(⟨25, 1, 1, 1⟩, doppler_broadened_halfwidth 296 1 25)] := by
      rw [window_entries, hw]
      simp
    simp only [SpectralLines.absorption_coefficient, hent, List.map_cons,
      List.map_nil, searchsorted_left, searchsorted_right, List.countP_cons,
      List.countP_nil]
    norm_num [lorentz_profile]
    ring
  · apply one_div_ne_zero
    positivity

/-- C1 witness: the closed-window equality at the concrete boundary
input, with the nonnegative-cutoff hypothesis discharged at `25`. -/
theorem absorption_coefficient_closed_window_witness :
    (0 : ℝ) ≤ 25 ∧
    boundary_example.absorption_coefficient 296 1 0 [0] lorentz_profile 25 =
      closed_window_absorption boundary_example 296 1 0 [0] lorentz_profile 25 :=
  ⟨by norm_num,
    absorption_coefficient_closed_window boundary_example 296 1 0 [0]
      lorentz_profile 25 (by norm_num)⟩

/-- The temperature-correction factor exactly as the spec words it:
`f(T, iso, en, v) = Q(T, iso) / (exp(c2*en/T) * (1 - exp(c2*v/T)))` with the
constant `c2 = -1.4387768795689562`. -/
noncomputable def spec_correction_factor (q : ℝ → ℤ → ℝ) (t : ℝ) (iso : ℤ)
    (en v : ℝ) : ℝ :=
  q t iso / (Real.exp (-1.4387768795689562 * en / t) *
    (1 - Real.exp (-1.4387768795689562 * v / t)))

/-- The same formula with the constant the cited code actually hardcodes,
`c2 = -1.4387686`. -/
noncomputable def amended_correction_factor (q : ℝ → ℤ → ℝ) (t : ℝ) (iso : ℤ)
    (en v : ℝ) : ℝ :=
  q t iso / (Real.exp (-1.4387686 * en / t) *
    (1 - Real.exp (-1.4387686 * v / t)))

theorem exp_mul_one_sub_exp_injOn_lt_neg_one {a b : ℝ} (ha : a < -1)
    (hb : b < -1) (hab : a ≠ b) :
    Real.exp a * (1 - Real.exp a) ≠ Real.exp b * (1 - Real.exp b) := by
  intro h
  have h2e : (2 : ℝ) < Real.exp 1 := by linarith [Real.exp_one_gt_d9]
  have hhalf : Real.exp (-1 : ℝ) < 1 / 2 := by
    rw [Real.exp_neg]
    have := inv_strictAnti₀ (by norm_num : (0:ℝ) < 2) h2e
    linarith
  have hea : Real.exp a < 1 / 2 :=
    lt_trans (Real.exp_lt_exp.mpr ha) hhalf
  have heb : Real.exp b < 1 / 2 :=
    lt_trans (Real.exp_lt_exp.mpr hb) hhalf
  have hu : Real.exp a ≠ Real.exp b := fun he => hab (Real.exp_injective he)
  have key : (Real.exp a - Real.exp b) * (1 - (Real.exp a + Real.exp b)) = 0 := by
    linear_combination h
  rcases mul_eq_zero.mp key with h0 | h0
  · exact hu (sub_eq_zero.mp h0)
  · linarith

/-- C4 counterexample: at `q = 1`, `T = 1`, `iso = 1`, `en = 1`, `v = 1` the
factor computed by `temperature_correct_line_strength` (local constant
`c2 = -1.4387686` in `lines.py` and `hitran.py`) differs from the spec's
formula with `c2 = -1.4387768795689562`. -/
theorem correction_constant_differs :
    temperature_correct_line_strength_fn (fun _ _ => 1) 1 1 1 1 ≠
      spec_correction_factor (fun _ _ => 1) 1 1 1 1 := by
  simp only [temperature_correct_line_strength_fn, spec_correction_factor, c2]
  rw [show (-1.4387686 : ℝ) * 1 / 1 = -1.4387686 by ring,
    show (-1.4387768795689562 : ℝ) * 1 / 1 = -1.4387768795689562 by ring]
  have hda : (0 : ℝ) < Real.exp (-1.4387686) * (1 - Real.exp (-1.4387686)) := by
    apply mul_pos (Real.exp_pos _)
    have : Real.exp (-1.4387686 : ℝ) < Real.exp 0 := Real.exp_lt_exp.mpr (by norm_num)
    rw [Real.exp_zero] at this
    linarith
  have hdb : (0 : ℝ) < Real.exp (-1.4387768795689562) *
      (1 - Real.exp (-1.4387768795689562)) := by
    apply mul_pos (Real.exp_pos _)
    have : Real.exp (-1.4387768795689562 : ℝ) < Real.exp 0 :=
      Real.exp_lt_exp.mpr (by norm_num)
    rw [Real.exp_zero] at this
    linarith
  intro h
  rw [div_eq_div_iff hda.ne' hdb.ne', one_mul, one_mul] at h
  exact exp_mul_one_sub_exp_injOn_lt_neg_one (by norm_num) (by norm_num)
    (by norm_num) h.symm

/-- C4 (amended): `temperature_correct_line_strength` computes exactly
`Q(T, iso) / (exp(c2*en/T) * (1 - exp(c2*v/T)))`, but with the constant
`c2 = -1.4387686` hardcoded in the cited code, not `-1.4387768795689562`. -/
theorem correction_factor_formula (q : ℝ → ℤ → ℝ) (t : ℝ) (iso : ℤ)
    (en v : ℝ) :
    temperature_correct_line_strength_fn q t iso en v =
      amended_correction_factor q t iso en v := by
  simp [temperature_correct_line_strength_fn, amended_correction_factor, c2]

end lines

namespace spectral_lines

/-! ### `pyrad/lbl/hitran/spectral_lines.py` with `pyrad/lbl/hitran/lorentz.py`

The rewritten `SpectralLines` class.  Its `absorption_coefficient` makes a
shallow copy of `self` and of the stored line-profile object, rebinds the
working arrays on the copies, and for each LINE binary-searches the sorted
wavenumber grid for the window slice to add into (there is no per-grid-point
search and no re-sort of the shifted centers here).  The stored line-shape
strategy is embedded as the `Lorentz` instance of `lorentz.py`. -/

/-- `pyrad.lbl.hitran.line_parameters.c2`.
Modelled from the spec: `spectral_lines.py` imports `c2` from
`line_parameters.py`, but the `line_parameters.py` in the tree defines no
such constant; the spec gives the second-radiation-constant value
`c2 = -1.4387768795689562` cm K (sign convention of the exponentials). -/
noncomputable def c2 : ℝ := -1.4387768795689562

structure SpectralLines where
  v : List ℝ
  s : List ℝ
  en : List ℝ
  iso : List ℤ
  gamma_air : List ℝ
  gamma_self : List ℝ
  n_air : List ℝ
  d_air : List ℝ
  mass : List ℝ
  q : ℝ → ℤ → ℝ
  halfwidth : List ℝ

/-- Scalar core of the staticmethod
`SpectralLines.temperature_correct_line_strength`, with the module-level
`c2`. -/
noncomputable def temperature_correct_line_strength_fn (q : ℝ → ℤ → ℝ) (t : ℝ)
    (iso : ℤ) (en v : ℝ) : ℝ :=
  q t iso / (Real.exp (c2 * en / t) * (1 - Real.exp (c2 * v / t)))

/-- `SpectralLines.temperature_correct_line_strength` applied elementwise. -/
noncomputable def temperature_correct_line_strength (q : ℝ → ℤ → ℝ) (t : ℝ)
    (iso : List ℤ) (en v : List ℝ) : List ℝ :=
  (iso.zip (en.zip v)).map fun x =>
    temperature_correct_line_strength_fn q t x.1 x.2.1 x.2.2

/-- `SpectralLines.correct_line_strengths`. -/
noncomputable def SpectralLines.correct_line_strengths (self : SpectralLines)
    (temperature : ℝ) : List ℝ :=
  List.zipWith (fun a b => a * b) self.s
    ((temperature_correct_line_strength self.q temperature self.iso self.en self.v).map
      fun f => 1 / f)

/-- `SpectralLines.pressure_shift_transition_wavenumbers`:
`self.v[:] + self.d_air[:]*pressure`. -/
noncomputable def SpectralLines.pressure_shift_transition_wavenumbers
    (self : SpectralLines) (pressure : ℝ) : List ℝ :=
  List.zipWith (fun vi di => vi + di * pressure) self.v self.d_air

/-- `lorentz.pressure_broadened_halfwidth` (scalar). -/
noncomputable def pressure_broadened_halfwidth
    (pressure partial_pressure temperature n gamma_air gamma_self : ℝ) : ℝ :=
  Real.rpow (296 / temperature) n *
    (gamma_air * (pressure - partial_pressure) + gamma_self * partial_pressure)

/-- `Lorentz.update`: the per-line pressure-broadened halfwidth array the
strategy stores into its (per-call copy's) `halfwidth` attribute. -/
noncomputable def lorentz_update (sl : SpectralLines)
    (temperature pressure partial_pressure : ℝ) : List ℝ :=
  (sl.n_air.zip (sl.gamma_air.zip sl.gamma_self)).map fun x =>
    pressure_broadened_halfwidth pressure partial_pressure temperature x.1 x.2.1 x.2.2

/-- `lorentz.lorentz_profile`:
`halfwidth/(pi*(halfwidth*halfwidth + dv*dv))`. -/
noncomputable def lorentz_profile (dv halfwidth : ℝ) : ℝ :=
  halfwidth / (Real.pi * (halfwidth * halfwidth + dv * dv))

/-- `k[left:right] += ...` - add `f(wavenumber[j])` to the entries of the
accumulator `k` with index `left ≤ j < right` (the numpy slice add of the
summation loop; `k` and `wavenumber` are parallel). -/
noncomputable def slice_add (k wavenumber : List ℝ) (left right : ℕ)
    (f : ℝ → ℝ) : List ℝ :=
  (k.zip wavenumber).enum.map fun p =>
    if left ≤ p.1 ∧ p.1 < right then p.2.1 + f p.2.2 else p.2.1

/-- `SpectralLines.absorption_coefficient` of `spectral_lines.py`, embedded
as a state transformer `self ↦ (self after the call, k)`, with the Lorentz
strategy of `lorentz.py` as the stored `line_profile`.  The source works on
`lines = shallow_copy(self)` and `profile = shallow_copy(lines.line_profile)`:
each assignment of the body rebinds an attribute of one of the two copies
(`profile.halfwidth` via `update`, then `lines.s`, `lines.v`) or writes the
local accumulator `k`; no in-place numpy operation targets an array of
`self`, so the post-call state is `self` unchanged.  For each line `i` the
loop binary-searches the (sorted) wavenumber grid for the slice
`[searchsorted(w, v[i]-cut_off, "left") : searchsorted(w, v[i]+cut_off,
"right")]` and adds `s[i]*profile.profile(lines, w[slice], i)` into it;
the shifted centers are used in stored order, without any re-sort. -/
noncomputable def SpectralLines.absorption_coefficient (self : SpectralLines)
    (temperature pressure partial_pressure : ℝ) (wavenumber : List ℝ)
    (cut_off : ℝ := 25) : SpectralLines × List ℝ :=
  let lines := self
  let profile_halfwidth := lorentz_update lines temperature pressure partial_pressure
  let lines := { lines with s := lines.correct_line_strengths temperature }
  let lines := { lines with v := lines.pressure_shift_transition_wavenumbers pressure }
  let items := lines.v.zip (lines.s.zip profile_halfwidth)
  let k := items.foldl (fun k it =>
      let left := searchsorted_left wavenumber (it.1 - cut_off)
      let right := searchsorted_right wavenumber (it.1 + cut_off)
      slice_add k wavenumber left right fun w =>
        it.2.1 * lorentz_profile (w - it.1) it.2.2)
    (wavenumber.map fun _ => 0)
  (self, k)

/-- C9: frame property of `absorption_coefficient`: the per-call working
copies absorb every write, so all stored arrays of the `SpectralLines`
object (`v`, `s`, `en`, `iso`, `gamma_air`, `gamma_self`, `n_air`, `d_air`,
`mass`, and the stored profile state) are unchanged by the call. -/
theorem absorption_coefficient_preserves_state (self : SpectralLines)
    (temperature pressure partial_pressure : ℝ) (wavenumber : List ℝ)
    (cut_off : ℝ) :
    (self.absorption_coefficient temperature pressure partial_pressure
      wavenumber cut_off).1 = self :=
  rfl

/-- Two lines whose unshifted centers `[0, 1]` are re-ordered by the
pressure shift `delta = [100, 0]` at `P = 1`: the shifted centers are
`[100, 1]`. -/
noncomputable def shift_reorder_example : SpectralLines :=
  { v := [0, 1], s := [1, 1], en := [0, 0], iso := [1, 1]
    gamma_air := [1, 1], gamma_self := [0, 0], n_air := [0, 0]
    d_air := [100, 0], mass := [1, 1], q := fun _ _ => 1, halfwidth := [] }

/-- C2 counterexample: in `spectral_lines.py` the summation loop of
`absorption_coefficient` consumes `lines.v =
pressure_shift_transition_wavenumbers(pressure)` in stored order - there is
no re-sort after the pressure shift (the binary search runs over the
wavenumber grid instead).  At `P = 1` this concrete line set is processed
with the center array `[100, 1]`, which is not ascending. -/
theorem shifted_centers_not_resorted :
    shift_reorder_example.pressure_shift_transition_wavenumbers 1 = [100, 1] ∧
      ¬ ([100, 1] : List ℝ).Sorted (· ≤ ·) := by
  constructor
  · simp [SpectralLines.pressure_shift_transition_wavenumbers, shift_reorder_example]
  · intro h
    rw [List.sorted_cons] at h
    have := h.1 1 (List.mem_singleton.mpr rfl)
    norm_num at this

/-- The end-to-end Lorentz scenario: one line at `v = 1000` with zero
pressure shift, partition function chosen so the corrected strength is
exactly `1`, and `n = 0`, `gamma_air = 0.1`, `gamma_self = 0`, so that at
`T = 296`, `P = 1`, `Pp = 0` the Lorentz halfwidth is exactly `0.1`. -/
noncomputable def lorentz_peak_example : SpectralLines :=
  { v := [1000], s := [1], en := [0], iso := [1], gamma_air := [0.1]
    gamma_self := [0], n_air := [0], d_air := [0], mass := [1]
    q := fun t _ => 1 - Real.exp (c2 * 1000 / t), halfwidth := [] }

theorem lorentz_peak_example_eval :
    (lorentz_peak_example.absorption_coefficient 296 1 0 [999.9, 1000, 1000.1]
      25).2 = [5 / Real.pi, 10 / Real.pi, 5 / Real.pi] := by
  have hne : (1 : ℝ) - Real.exp (c2 * 1000 / 296) ≠ 0 := by
    rw [sub_ne_zero]
    intro h
    have h0 : c2 * 1000 / 296 = 0 := (Real.exp_eq_one_iff _).mp h.symm
    rw [div_eq_zero_iff] at h0
    rcases h0 with h0 | h0
    · norm_num [c2] at h0
    · norm_num at h0
  have hfac : temperature_correct_line_strength lorentz_peak_example.q 296
      [1] [0] [1000] = [1] := by
    simp only [temperature_correct_line_strength,
      temperature_correct_line_strength_fn, lorentz_peak_example,
      List.zip_cons_cons, List.zip_nil_right, List.map_cons, List.map_nil]
    rw [show c2 * (0 : ℝ) / 296 = 0 by ring, Real.exp_zero, one_mul,
      div_self hne]
  have hCLS : lorentz_peak_example.correct_line_strengths 296 = [1] := by
    simp only [SpectralLines.correct_line_strengths, lorentz_peak_example] at hfac ⊢
    rw [hfac]
    norm_num
  have hHW : lorentz_update lorentz_peak_example 296 1 0 = [0.1] := by
    simp only [lorentz_update, pressure_broadened_halfwidth, lorentz_peak_example,
      List.zip_cons_cons, List.zip_nil_right, List.map_cons, List.map_nil]
    norm_num
  simp only [SpectralLines.absorption_coefficient]
  rw [hCLS, hHW]
  simp only [SpectralLines.pressure_shift_transition_wavenumbers,
    lorentz_peak_example, List.zipWith_cons_cons, List.zipWith_nil_right,
    List.zip_cons_cons, List.zip_nil_right, List.map_cons, List.map_nil]
  norm_num
  simp only [slice_add, searchsorted_left, searchsorted_right, List.countP_cons,
    List.countP_nil, List.zip_cons_cons, List.zip_nil_right, List.enum,
    lorentz_profile]
  norm_num [List.enumFrom, Real.pi_ne_zero]
  constructor
  · rw [div_eq_div_iff (by positivity) (by positivity)]
    ring
  constructor
  · rw [div_eq_div_iff (by positivity) (by positivity)]
    ring
  · rw [div_eq_div_iff (by positivity) (by positivity)]
    ring

/-- C3 counterexample: the claimed output `[γ/(π·γ²), γ/(π·γ²), γ/(π·γ²)]`
(`= [10/π, 10/π, 10/π]` at `γ = 0.1`) is wrong: the computed spectrum at the
`±0.1 = ±γ` offsets is `5/π`, half the peak, not the peak value. -/
theorem lorentz_peak_claim_false :
    (lorentz_peak_example.absorption_coefficient 296 1 0 [999.9, 1000, 1000.1]
        25).2 ≠
      [(0.1 : ℝ) / (Real.pi * (0.1 * 0.1)), 0.1 / (Real.pi * (0.1 * 0.1)),
        0.1 / (Real.pi * (0.1 * 0.1))] := by
  rw [lorentz_peak_example_eval]
  intro h
  have h0 : (5 : ℝ) / Real.pi = 0.1 / (Real.pi * (0.1 * 0.1)) :=
    congrArg (fun l : List ℝ => l.headI) h
  field_simp [Real.pi_ne_zero] at h0
  linarith [Real.pi_pos]

/-- C3 (amended): the single-Lorentz-line scenario returns the analytic peak
`γ/(π·γ²) = 10/π ≈ 3.18` at line center and `γ/(π·(γ² + 0.1²)) = 5/π ≈ 1.59`
(half the peak, because the offsets equal the halfwidth) at the two
equidistant offsets. -/
theorem lorentz_peak_amended :
    (lorentz_peak_example.absorption_coefficient 296 1 0 [999.9, 1000, 1000.1]
        25).2 =
      [(0.1 : ℝ) / (Real.pi * (0.1 * 0.1 + 0.1 * 0.1)),
        0.1 / (Real.pi * (0.1 * 0.1)),
        0.1 / (Real.pi * (0.1 * 0.1 + 0.1 * 0.1))] := by
  rw [lorentz_peak_example_eval]
  have hpi := Real.pi_ne_zero
  norm_num
  constructor
  · rw [div_eq_div_iff (by positivity) (by positivity)]
    ring
  constructor
  · rw [div_eq_div_iff (by positivity) (by positivity)]
    ring
  · rw [div_eq_div_iff (by positivity) (by positivity)]
    ring

/-- The `Hitran` database object consumed by `SpectralLines.__init__`:
the parallel parameter arrays plus the per-isotopologue masses
(`database.isotopologues[x-1].mass`). -/
structure Database where
  v : List ℝ
  s : List ℝ
  en : List ℝ
  iso : List ℤ
  gamma_air : List ℝ
  gamma_self : List ℝ
  n_air : List ℝ
  d_air : List ℝ
  isotopologue_masses : List ℝ

/-- `SpectralLines.__init__` of `spectral_lines.py` (line-mixing branch not
taken, i.e. `line_profile.line_mixing is None`): copies the parameter
arrays, remaps isotopologue id `0` to `10`, looks up the isotopologue
masses, and pre-multiplies the strengths by the reference-temperature
correction factor.  The body contains no emptiness check and never raises:
it is a total function of the database, and on an empty database it returns
an empty (0-line) `SpectralLines`, its docstring's `EmptySpectraError`
notwithstanding.  (The out-of-range mass lookup, impossible for valid
HITRAN isotopologue ids and vacuous for empty input, is totalized with a
default of `0`.) -/
noncomputable def init (database : Database) (q : ℝ → ℤ → ℝ) : SpectralLines :=
  let iso := database.iso.map fun i => if i = 0 then 10 else i
  let mass := iso.map fun x => (database.isotopologue_masses.get? (x - 1).toNat).getD 0
  let s := List.zipWith (fun a b => a * b) database.s
    (temperature_correct_line_strength q TIPS_REFERENCE_TEMPERATURE iso
      database.en database.v)
  { v := database.v, s := s, en := database.en, iso := iso
    gamma_air := database.gamma_air, gamma_self := database.gamma_self
    n_air := database.n_air, d_air := database.d_air, mass := mass, q := q
    halfwidth := [] }

def empty_database : Database :=
  { v := [], s := [], en := [], iso := [], gamma_air := [], gamma_self := []
    n_air := [], d_air := [], isotopologue_masses := [] }

/-- C5 failing input: on an empty record batch, `SpectralLines.__init__` of
`spectral_lines.py` completes normally and returns a degenerate 0-line
`SpectralLines` object instead of raising `EmptySpectraError`. -/
theorem init_empty_returns_degenerate :
    init empty_database (fun _ _ => 1) =
      { v := [], s := [], en := [], iso := [], gamma_air := [], gamma_self := []
        n_air := [], d_air := [], mass := [], q := fun _ _ => 1
        halfwidth := [] } := by
  simp [init, empty_database, temperature_correct_line_strength]

end spectral_lines

namespace cross_sections

/-! ### `pyrad/lbl/hitran/cross_sections.py` and `pyrad/lbl/hitran/utils.py`

The tabulated cross-section resolver.  A `Table` is the header data of one
parsed `.xsc` table: its temperature, pressure, and
`band_params = (wavenumber[0], wavenumber[-1], number of points)`; the
wavenumber/cross-section sample arrays themselves only feed the scipy
interpolators, which are abstracted as an oracle `interp` giving the value a
band's surviving interpolation branch produces at a grid index.  All numbers
are rationals, so every definition here evaluates by `decide`. -/

structure Table where
  temperature : ℚ
  pressure : ℚ
  bandStart : ℚ
  bandEnd : ℚ
  sampleCount : ℕ
deriving DecidableEq, Repr

/-- `Table.band_params`: the `(starting wavenumber, ending wavenumber,
number of points)` key (`wavenumber[0]` and `wavenumber[-1]` of the
`linspace(w0, wn, n, endpoint=True)` sample grid equal the band bounds). -/
def Table.band_params (t : Table) : ℚ × ℚ × ℕ :=
  (t.bandStart, t.bandEnd, t.sampleCount)

/-- `utils.cross_section_bands`, inner loop: grow the current run `band`
while the next table's `band_params` equals the run's last, else emit the
run and start a new one; the final run is emitted after the loop. -/
def cross_section_bands_aux (band : List Table) : List Table → List (List Table)
  | [] => [band]
  | t :: rest =>
    if t.band_params = (band.getLastD t).band_params then
      cross_section_bands_aux (band ++ [t]) rest
    else
      band :: cross_section_bands_aux [t] rest

/-- `utils.cross_section_bands`: partition a sorted table list into runs of
equal `band_params`.  (The source indexes `sorted_tables[0]` and is only
called after `cross_section_inquiry` raised on an empty list; the empty case
is totalized to `[]`.) -/
def cross_section_bands : List Table → List (List Table)
  | [] => []
  | t :: rest => cross_section_bands_aux [t] rest

instance tablePressureLE : DecidableRel fun a b : Table => a.pressure ≤ b.pressure :=
  fun a b => inferInstanceAs (Decidable (a.pressure ≤ b.pressure))

instance tableTemperatureLE :
    DecidableRel fun a b : Table => a.temperature ≤ b.temperature :=
  fun a b => inferInstanceAs (Decidable (a.temperature ≤ b.temperature))

instance tableBandEndLE : DecidableRel fun a b : Table => a.bandEnd ≤ b.bandEnd :=
  fun a b => inferInstanceAs (Decidable (a.bandEnd ≤ b.bandEnd))

instance tableBandStartLE :
    DecidableRel fun a b : Table => a.bandStart ≤ b.bandStart :=
  fun a b => inferInstanceAs (Decidable (a.bandStart ≤ b.bandStart))

instance tableBandStartLETotal :
    IsTotal Table fun a b : Table => a.bandStart ≤ b.bandStart :=
  ⟨fun a b => le_total a.bandStart b.bandStart⟩

instance tableBandStartLETrans :
    IsTrans Table fun a b : Table => a.bandStart ≤ b.bandStart :=
  ⟨fun _ _ _ hab hbc => le_trans hab hbc⟩

instance tableBandEndLETotal :
    IsTotal Table fun a b : Table => a.bandEnd ≤ b.bandEnd :=
  ⟨fun a b => le_total a.bandEnd b.bandEnd⟩

instance tableBandEndLETrans :
    IsTrans Table fun a b : Table => a.bandEnd ≤ b.bandEnd :=
  ⟨fun _ _ _ hab hbc => le_trans hab hbc⟩

/-- `HitranCrossSection.create_bands`: four nested stable ascending sorts
(`sorted(sorted(sorted(sorted(tables, key=pressure), key=temperature),
key=wavenumber[-1]), key=wavenumber[0])`; Python's `sorted` is stable, as is
`List.insertionSort`) followed by the run-grouping of
`utils.cross_section_bands`.  The `cross_section_inquiry` empty-input guard
raises before grouping; nonempty inputs are the ones embedded. -/
def create_bands (tables : List Table) : List (List Table) :=
  let s1 := tables.insertionSort fun a b => a.pressure ≤ b.pressure
  let s2 := s1.insertionSort fun a b => a.temperature ≤ b.temperature
  let s3 := s2.insertionSort fun a b => a.bandEnd ≤ b.bandEnd
  let s4 := s3.insertionSort fun a b => a.bandStart ≤ b.bandStart
  cross_section_bands s4

/-- `min(abs(asarray([x.temperature for x in band]) - temperature))`: the
minimum temperature distance of a band's tables to the query temperature
(`numpy.min` of a nonempty array; the empty case is totalized to `0`). -/
def min_temperature_distance (band : List Table) (temperature : ℚ) : ℚ :=
  match band with
  | [] => 0
  | x :: xs => xs.foldl (fun m y => min m |y.temperature - temperature|)
      |x.temperature - temperature|

/-- The inner `for i, (lower, upper) in enumerate(zip(band_left_index,
band_right_index))` loop of `absorption_coefficient`, with its `break` after
the first claimed range with `left <= upper`.  Returns the pair
`(override, left)` the loop leaves behind.  NOTE the source's
`self.bands[i]`: the enumeration index `i` of the claimed-range lists is
used to index the FULL band list `allBands`, which points at the wrong band
whenever some earlier band was skipped. -/
def resolve_overlap (allBands : List (List Table)) (temperature : ℚ)
    (band : List Table) (left right : ℕ) :
    List (ℕ × ℕ) → ℕ → Bool × ℕ
  | [], _ => (true, left)
  | (_, upper) :: rest, i =>
    if left ≤ upper then
      if right ≤ upper then
        (decide (min_temperature_distance band temperature <
          min_temperature_distance (allBands.getD i []) temperature), left)
      else
        (true, upper)
    else
      resolve_overlap allBands temperature band left right rest (i + 1)

def write_slice_from (left right : ℕ) (f : ℕ → ℚ) : ℕ → List ℚ → List ℚ
  | _, [] => []
  | j, x :: xs =>
    (if left ≤ j ∧ j < right then f j else x) ::
      write_slice_from left right f (j + 1) xs

/-- `cross_section[left:right] = values`: overwrite the entries of `cs` with
index `left ≤ j < right` by `f j` (the slice assignment receiving an
interpolated array). -/
def write_slice (cs : List ℚ) (left right : ℕ) (f : ℕ → ℚ) : List ℚ :=
  write_slice_from left right f 0 cs

/-- The band loop of `HitranCrossSection.absorption_coefficient`.  `b` is
the index of the current band in the stored band list (carried for the
`interp` oracle and for the source's `self.bands[i]` lookup), `cs` the
accumulated cross-section array and `claimed` the parallel
`band_left_index`/`band_right_index` lists. -/
def absorption_loop (allBands : List (List Table)) (temperature : ℚ)
    (grid : List ℚ) (interp : ℕ → ℕ → ℚ) :
    List (List Table) → ℕ → List ℚ → List (ℕ × ℕ) → List ℚ
  | [], _, cs, _ => cs
  | band :: rest, b, cs, claimed =>
    match band with
    | [] => absorption_loop allBands temperature grid interp rest (b + 1) cs claimed
    | t0 :: _ =>
      if t0.bandStart > grid.getLastD 0 ∨ t0.bandEnd < grid.headD 0 then
        absorption_loop allBands temperature grid interp rest (b + 1) cs claimed
      else
        let left := searchsorted_left grid t0.bandStart
        let right := searchsorted_left grid t0.bandEnd
        let res := resolve_overlap allBands temperature band left right claimed 0
        if res.1 then
          absorption_loop allBands temperature grid interp rest (b + 1)
            (write_slice cs res.2 right fun j => interp b j)
            (claimed ++ [(res.2, right)])
        else
          absorption_loop allBands temperature grid interp rest (b + 1) cs claimed

def cm_to_m : ℚ := 1 / 100

/-- `HitranCrossSection.absorption_coefficient(temperature, pressure, grid)`.
Bands whose `[band_params[0], band_params[1]]` range misses the grid are
skipped; each surviving band's grid sub-range `[left, right)` is found by
`searchsorted` (default side `"left"` for both bounds); spectral overlap
between bands is resolved by `resolve_overlap`; the surviving band's
interpolated values (`interp`, abstracting the scipy 1D/2D/ND interpolation
branches, none of which matter to the claims settled here) overwrite the
sub-range; finally negative values are zeroed and the result is scaled by
`cm_to_m**2`.  (`pressure` only feeds the interpolators, hence is absorbed
into `interp`.) -/
def absorption_coefficient (bands : List (List Table)) (temperature : ℚ)
    (grid : List ℚ) (interp : ℕ → ℕ → ℚ) : List ℚ :=
  let cs := absorption_loop bands temperature grid interp bands 0
    (grid.map fun _ => 0) []
  (cs.map fun x => if x < 0 then 0 else x).map fun x => x * (cm_to_m * cm_to_m)

/-- The lexicographic `(band start, band end)` order that the two outer
stable sorts of `create_bands` establish. -/
def table_lex (a b : Table) : Prop :=
  a.bandStart < b.bandStart ∨ (a.bandStart = b.bandStart ∧ a.bandEnd ≤ b.bandEnd)

theorem table_lex_start_le {a b : Table} (h : table_lex a b) :
    a.bandStart ≤ b.bandStart := by
  rcases h with h | h
  · exact le_of_lt h
  · exact le_of_eq h.1

theorem orderedInsert_table_lex (x : Table) :
    ∀ (M : List Table), M.Sorted table_lex →
      (∀ y ∈ M, x.bandEnd ≤ y.bandEnd) →
      (M.orderedInsert (fun a b => a.bandStart ≤ b.bandStart) x).Sorted table_lex
  | [], _, _ => List.sorted_singleton x
  | y :: M, hM, hx => by
    rw [List.sorted_cons] at hM
    by_cases hxy : x.bandStart ≤ y.bandStart
    · rw [List.orderedInsert, if_pos hxy, List.sorted_cons]
      refine ⟨?_, List.sorted_cons.mpr hM⟩
      intro z hz
      rcases List.mem_cons.mp hz with rfl | hzM
      · rcases lt_or_eq_of_le hxy with h | h
        · exact Or.inl h
        · exact Or.inr ⟨h, hx z (List.mem_cons_self _ _)⟩
      · have hyz := hM.1 z hzM
        rcases lt_or_eq_of_le (le_trans hxy (table_lex_start_le hyz)) with h | h
        · exact Or.inl h
        · exact Or.inr ⟨h, hx z (List.mem_cons_of_mem _ hzM)⟩
    · rw [List.orderedInsert, if_neg hxy, List.sorted_cons]
      have hyx : y.bandStart < x.bandStart := lt_of_not_le hxy
      constructor
      · intro z hz
        rcases (List.mem_orderedInsert _).mp hz with rfl | hzM
        · exact Or.inl hyx
        · exact hM.1 z hzM
      · exact orderedInsert_table_lex x M hM.2
          fun z hz => hx z (List.mem_cons_of_mem _ hz)

theorem insertionSort_table_lex :
    ∀ (L : List Table), L.Sorted (fun a b : Table => a.bandEnd ≤ b.bandEnd) →
      (L.insertionSort fun a b => a.bandStart ≤ b.bandStart).Sorted table_lex
  | [], _ => List.sorted_nil
  | x :: L, hL => by
    rw [List.sorted_cons] at hL
    rw [List.insertionSort]
    apply orderedInsert_table_lex x _ (insertionSort_table_lex L hL.2)
    intro y hy
    exact hL.1 y ((List.perm_insertionSort _ L).mem_iff.mp hy)

/-- The final list sorted inside `create_bands`. -/
def create_bands_sorted (tables : List Table) : List Table :=
  (((tables.insertionSort fun a b => a.pressure ≤ b.pressure).insertionSort
      fun a b => a.temperature ≤ b.temperature).insertionSort
    fun a b => a.bandEnd ≤ b.bandEnd).insertionSort
      fun a b => a.bandStart ≤ b.bandStart

theorem create_bands_eq_sorted (tables : List Table) :
    create_bands tables = cross_section_bands (create_bands_sorted tables) :=
  rfl

theorem create_bands_sorted_mem (tables : List Table) (t : Table) :
    t ∈ create_bands_sorted tables ↔ t ∈ tables := by
  unfold create_bands_sorted
  rw [(List.perm_insertionSort _ _).mem_iff, (List.perm_insertionSort _ _).mem_iff,
    (List.perm_insertionSort _ _).mem_iff, (List.perm_insertionSort _ _).mem_iff]

theorem create_bands_sorted_lex (tables : List Table) :
    (create_bands_sorted tables).Sorted table_lex :=
  insertionSort_table_lex _ (List.sorted_insertionSort _ _)

theorem getLastD_mem_of_ne_nil :
    ∀ (l : List Table), l ≠ [] → ∀ d : Table, l.getLastD d ∈ l
  | [], h, _ => absurd rfl h
  | [x], _, d => by simp
  | x :: y :: l, _, d => by
    rw [List.getLastD_cons]
    exact List.mem_cons_of_mem x (getLastD_mem_of_ne_nil (y :: l) (by simp) x)

theorem cross_section_bands_aux_same_band (t1 t2 : Table)
    (hbp : t1.band_params = t2.band_params) :
    ∀ (rest band : List Table) (B : ℚ × ℚ × ℕ),
      band ≠ [] →
      (∀ x ∈ band, x.band_params = B) →
      rest.Sorted table_lex →
      (∀ x ∈ band, ∀ r ∈ rest, table_lex x r) →
      (∀ x ∈ band ++ rest, ∀ y ∈ band ++ rest, x.bandStart = y.bandStart →
        x.bandEnd = y.bandEnd → x.sampleCount = y.sampleCount) →
      t1 ∈ band ++ rest → t2 ∈ band ++ rest →
      ∃ b ∈ cross_section_bands_aux band rest, t1 ∈ b ∧ t2 ∈ b
  | [], band, B, _, _, _, _, _, ht1, ht2 =>
    ⟨band, by simp [cross_section_bands_aux], by simpa using ht1,
      by simpa using ht2⟩
  | t :: rest', band, B, hne, hBall, hsorted, hbound, hH, ht1, ht2 => by
    rw [List.sorted_cons] at hsorted
    have hlastB : (band.getLastD t).band_params = B :=
      hBall _ (getLastD_mem_of_ne_nil band hne t)
    by_cases htB : t.band_params = B
    · rw [cross_section_bands_aux, if_pos (by rw [hlastB, htB])]
      have happ : (band ++ [t]) ++ rest' = band ++ (t :: rest') := by
        rw [List.append_assoc, List.singleton_append]
      apply cross_section_bands_aux_same_band t1 t2 hbp rest' (band ++ [t]) B
        (by simp)
        (fun x hx => by
          rcases List.mem_append.mp hx with hx | hx
          · exact hBall x hx
          · rw [List.mem_singleton] at hx
            rw [hx]
            exact htB)
        hsorted.2
        (fun x hx r hr => by
          rcases List.mem_append.mp hx with hx | hx
          · exact hbound x hx r (List.mem_cons_of_mem _ hr)
          · rw [List.mem_singleton] at hx
            rw [hx]
            exact hsorted.1 r hr)
        (by rw [happ]; exact hH)
        (by rw [happ]; exact ht1)
        (by rw [happ]; exact ht2)
    · rw [cross_section_bands_aux, if_neg (by rw [hlastB]; exact htB)]
      have hsplit : ∀ x ∈ band, ∀ y ∈ t :: rest',
          x.band_params ≠ y.band_params := by
        intro x hx y hy heq
        have hbpx : x.band_params = B := hBall x hx
        have hfields : x.bandStart = y.bandStart ∧ x.bandEnd = y.bandEnd ∧
            x.sampleCount = y.sampleCount := by
          have := heq
          simp only [Table.band_params, Prod.mk.injEq] at this
          exact this
        rcases List.mem_cons.mp hy with rfl | hy'
        · exact htB (by rw [← heq]; exact hbpx)
        · have hxt : table_lex x t := hbound x hx t (List.mem_cons_self _ _)
          have hty : table_lex t y := hsorted.1 y hy'
          have hstart : x.bandStart = t.bandStart ∧ t.bandStart = y.bandStart := by
            have h1 := table_lex_start_le hxt
            have h2 := table_lex_start_le hty
            constructor
            · exact le_antisymm h1 (by rw [hfields.1]; exact h2)
            · exact le_antisymm h2 (by rw [← hfields.1]; exact h1)
          have hend : x.bandEnd = t.bandEnd ∧ t.bandEnd = y.bandEnd := by
            have h1 : x.bandEnd ≤ t.bandEnd := by
              rcases hxt with h | h
              · exact absurd hstart.1 (ne_of_lt h)
              · exact h.2
            have h2 : t.bandEnd ≤ y.bandEnd := by
              rcases hty with h | h
              · exact absurd hstart.2 (ne_of_lt h)
              · exact h.2
            constructor
            · exact le_antisymm h1 (by rw [hfields.2.1]; exact h2)
            · exact le_antisymm h2 (by rw [← hfields.2.1]; exact h1)
          have hcount : t.sampleCount = x.sampleCount :=
            hH t (List.mem_append_right _ (List.mem_cons_self _ _))
              x (List.mem_append_left _ hx) hstart.1.symm hend.1.symm
          apply htB
          rw [← hbpx]
          simp only [Table.band_params, Prod.mk.injEq]
          exact ⟨hstart.1.symm, hend.1.symm, hcount⟩
      rcases List.mem_append.mp ht1 with h1b | h1r
      · rcases List.mem_append.mp ht2 with h2b | h2r
        · exact ⟨band, List.mem_cons_self _ _, h1b, h2b⟩
        · exact absurd hbp (hsplit t1 h1b t2 h2r)
      · rcases List.mem_append.mp ht2 with h2b | h2r
        · exact absurd hbp.symm (hsplit t2 h2b t1 h1r)
        · obtain ⟨b, hb, hb1, hb2⟩ :=
            cross_section_bands_aux_same_band t1 t2 hbp rest' [t] t.band_params
              (by simp)
              (fun x hx => by rw [List.mem_singleton] at hx; rw [hx])
              hsorted.2
              (fun x hx r hr => by
                rw [List.mem_singleton] at hx
                rw [hx]
                exact hsorted.1 r hr)
              (fun x hx y hy => hH x
                (List.mem_append_right _ (by simpa using hx))
                y (List.mem_append_right _ (by simpa using hy)))
              (by simpa using h1r) (by simpa using h2r)
          exact ⟨b, List.mem_cons_of_mem _ hb, hb1, hb2⟩

/-- C8 (amended): `create_bands` puts any two tables with identical band
parameters into one single band, PROVIDED the table list does not pair the
same `(band start, band end)` with two different sample counts (the sort
keys are only the band bounds, so differing-sample-count tables sharing
bounds can interleave an equal-band-params run and split it; see the
counterexample). -/
theorem create_bands_groups_equal_band_params (tables : List Table)
    (hH : ∀ x ∈ tables, ∀ y ∈ tables, x.bandStart = y.bandStart →
      x.bandEnd = y.bandEnd → x.sampleCount = y.sampleCount)
    (t1 t2 : Table) (ht1 : t1 ∈ tables) (ht2 : t2 ∈ tables)
    (hbp : t1.band_params = t2.band_params) :
    ∃ band ∈ create_bands tables, t1 ∈ band ∧ t2 ∈ band := by
  rw [create_bands_eq_sorted]
  have hmem := create_bands_sorted_mem tables
  have hlex := create_bands_sorted_lex tables
  match hS : create_bands_sorted tables with
  | [] =>
    rw [hS] at hmem
    exact absurd ((hmem t1).mpr ht1) (by simp)
  | h :: rest =>
    rw [hS] at hmem hlex
    rw [List.sorted_cons] at hlex
    rw [cross_section_bands]
    apply cross_section_bands_aux_same_band t1 t2 hbp rest [h] h.band_params
      (by simp)
      (fun x hx => by rw [List.mem_singleton] at hx; rw [hx])
      hlex.2
      (fun x hx r hr => by
        rw [List.mem_singleton] at hx
        rw [hx]
        exact hlex.1 r hr)
      (fun x hx y hy => hH x ((hmem x).mp (by simpa using hx))
        y ((hmem y).mp (by simpa using hy)))
      (by simpa using (hmem t1).mpr ht1)
      (by simpa using (hmem t2).mpr ht2)

/-- Three tables sharing the band bounds `[0, 1]`: the first and third have
sample count `5`, the middle one (at an intermediate temperature) has
sample count `7`. -/
def split_table_1 : Table :=
  { temperature := 200, pressure := 1, bandStart := 0, bandEnd := 1
    sampleCount := 5 }

def split_table_2 : Table :=
  { temperature := 250, pressure := 1, bandStart := 0, bandEnd := 1
    sampleCount := 7 }

def split_table_3 : Table :=
  { temperature := 300, pressure := 1, bandStart := 0, bandEnd := 1
    sampleCount := 5 }

/-- C8 counterexample: the sort keys of `create_bands` are only the band
BOUNDS (plus temperature/pressure), not the sample count, so the
`sampleCount = 7` table sorts between the two `sampleCount = 5` tables with
identical band parameters `(0, 1, 5)`, and the consecutive-run grouping
splits them into two different single-table bands. -/
theorem equal_band_params_split_across_bands :
    split_table_1.band_params = split_table_3.band_params ∧
    create_bands [split_table_1, split_table_2, split_table_3] =
      [[split_table_1], [split_table_2], [split_table_3]] ∧
    ¬ ∃ band ∈ create_bands [split_table_1, split_table_2, split_table_3],
        split_table_1 ∈ band ∧ split_table_3 ∈ band := by
  have heval : create_bands [split_table_1, split_table_2, split_table_3] =
      [[split_table_1], [split_table_2], [split_table_3]] := by
    norm_num [create_bands, cross_section_bands, cross_section_bands_aux,
      List.insertionSort, List.orderedInsert, split_table_1, split_table_2,
      split_table_3, Table.band_params]
  refine ⟨rfl, heval, ?_⟩
  rw [heval]
  rintro ⟨band, hband, h1, h3⟩
  simp only [List.mem_cons, List.not_mem_nil, or_false] at hband
  rcases hband with rfl | rfl | rfl
  · rw [List.mem_singleton] at h3
    exact absurd (congrArg Table.temperature h3)
      (by norm_num [split_table_3, split_table_1])
  · rw [List.mem_singleton] at h1
    exact absurd (congrArg Table.temperature h1)
      (by norm_num [split_table_2, split_table_1])
  · rw [List.mem_singleton] at h1
    exact absurd (congrArg Table.temperature h1)
      (by norm_num [split_table_3, split_table_1])

def merge_table_1 : Table :=
  { temperature := 200, pressure := 1, bandStart := 0, bandEnd := 1
    sampleCount := 5 }

def merge_table_2 : Table :=
  { temperature := 300, pressure := 1, bandStart := 0, bandEnd := 1
    sampleCount := 5 }

/-- C8 witness: two equal-band-params tables (with the sample-count
proviso holding) end up in one band. -/
theorem create_bands_groups_equal_band_params_witness :
    (∀ x ∈ [merge_table_1, merge_table_2], ∀ y ∈ [merge_table_1, merge_table_2],
      x.bandStart = y.bandStart → x.bandEnd = y.bandEnd →
        x.sampleCount = y.sampleCount) ∧
    merge_table_1 ∈ [merge_table_1, merge_table_2] ∧
    merge_table_2 ∈ [merge_table_1, merge_table_2] ∧
    merge_table_1.band_params = merge_table_2.band_params ∧
    ∃ band ∈ create_bands [merge_table_1, merge_table_2],
      merge_table_1 ∈ band ∧ merge_table_2 ∈ band := by
  have hH : ∀ x ∈ [merge_table_1, merge_table_2],
      ∀ y ∈ [merge_table_1, merge_table_2], x.bandStart = y.bandStart →
        x.bandEnd = y.bandEnd → x.sampleCount = y.sampleCount := by
    intro x hx y hy _ _
    simp only [List.mem_cons, List.not_mem_nil, or_false] at hx hy
    rcases hx with rfl | rfl <;> rcases hy with rfl | rfl <;> rfl
  exact ⟨hH, by simp, by simp, rfl,
    create_bands_groups_equal_band_params _ hH _ _ (by simp) (by simp) rfl⟩

/-- Three tables for the overlap-resolution failing input.  Band X
(`[0, 5]`, `T = 300`) lies below the grid and is skipped; band A
(`[10, 20]`, `T = 500`) covers the grid; band B (`[12, 15]`, `T = 400`) is
strictly nested inside A's claimed range, and its temperature is strictly
closer to the query `T = 300` than A's. -/
def overlap_table_X : Table :=
  { temperature := 300, pressure := 1, bandStart := 0, bandEnd := 5
    sampleCount := 10 }

def overlap_table_A : Table :=
  { temperature := 500, pressure := 1, bandStart := 10, bandEnd := 20
    sampleCount := 10 }

def overlap_table_B : Table :=
  { temperature := 400, pressure := 1, bandStart := 12, bandEnd := 15
    sampleCount := 10 }

def overlap_grid : List ℚ := [10, 12, 14, 16, 18, 20]

/-- Interpolation oracle distinguishing the bands: band index 1 (A)
interpolates to the constant `7`, everything else to `9`. -/
def overlap_interp : ℕ → ℕ → ℚ := fun b _ => if b = 1 then 7 else 9

/-- C7 failing input: `create_bands` puts the three tables into the three
bands `[[X], [A], [B]]`; B's temperature distance to the query (100) is
strictly smaller than A's (200), so by the overlap rule B's data must be
kept on the nested sub-range (grid indices 1 and 2, values `9/10000`); but
the resolver compares against `self.bands[0] = [X]` (the SKIPPED band, at
distance 0) instead of the claiming band A, discards B, and returns A's
values `7/10000` everywhere on A's range. -/
theorem overlap_wrong_band_kept :
    create_bands [overlap_table_X, overlap_table_A, overlap_table_B] =
      [[overlap_table_X], [overlap_table_A], [overlap_table_B]] ∧
    min_temperature_distance [overlap_table_B] 300 <
      min_temperature_distance [overlap_table_A] 300 ∧
    absorption_coefficient
        [[overlap_table_X], [overlap_table_A], [overlap_table_B]] 300
        overlap_grid overlap_interp =
      [7/10000, 7/10000, 7/10000, 7/10000, 7/10000, 0] := by
  refine ⟨?_, ?_, ?_⟩
  · norm_num [create_bands, cross_section_bands, cross_section_bands_aux,
      List.insertionSort, List.orderedInsert, overlap_table_X, overlap_table_A,
      overlap_table_B, Table.band_params]
  · norm_num [min_temperature_distance, overlap_table_A, overlap_table_B]
  · norm_num [absorption_coefficient, absorption_loop, resolve_overlap,
      write_slice, write_slice_from, searchsorted_left, min_temperature_distance,
      List.countP_cons, List.countP_nil, overlap_grid, overlap_interp,
      overlap_table_X, overlap_table_A, overlap_table_B, cm_to_m]

theorem write_slice_from_length (left right : ℕ) (f : ℕ → ℚ) :
    ∀ (i : ℕ) (cs : List ℚ),
      (write_slice_from left right f i cs).length = cs.length
  | _, [] => rfl
  | i, x :: xs => by
    simpa [write_slice_from] using write_slice_from_length left right f (i+1) xs

theorem write_slice_length (cs : List ℚ) (left right : ℕ) (f : ℕ → ℚ) :
    (write_slice cs left right f).length = cs.length :=
  write_slice_from_length left right f 0 cs

theorem write_slice_from_getD (left right : ℕ) (f : ℕ → ℚ) :
    ∀ (cs : List ℚ) (i j : ℕ), j < cs.length →
      (write_slice_from left right f i cs).getD j 0 =
        if left ≤ i + j ∧ i + j < right then f (i + j) else cs.getD j 0
  | [], _, j, hj => absurd hj (by simp)
  | x :: xs, i, 0, _ => by simp [write_slice_from]
  | x :: xs, i, (j+1), hj => by
    have := write_slice_from_getD left right f xs (i+1) j (by simpa using hj)
    simp only [write_slice_from, List.getD_cons_succ, this]
    have harith : i + 1 + j = i + (j + 1) := by omega
    rw [harith]

theorem write_slice_getD (cs : List ℚ) (left right : ℕ) (f : ℕ → ℚ) (j : ℕ)
    (hj : j < cs.length) :
    (write_slice cs left right f).getD j 0 =
      if left ≤ j ∧ j < right then f j else cs.getD j 0 := by
  have := write_slice_from_getD left right f cs 0 j hj
  simpa [write_slice] using this

theorem resolve_overlap_left_le (allBands : List (List Table))
    (temperature : ℚ) (band : List Table) (left right : ℕ) :
    ∀ (claimed : List (ℕ × ℕ)) (i : ℕ),
      left ≤ (resolve_overlap allBands temperature band left right claimed i).2
  | [], _ => le_refl _
  | (lower, upper) :: rest, i => by
    by_cases h1 : left ≤ upper
    · by_cases h2 : right ≤ upper
      · simp [resolve_overlap, h1, h2]
      · simp [resolve_overlap, h1, h2]
    · simpa [resolve_overlap, h1] using
        resolve_overlap_left_le allBands temperature band left right rest (i + 1)

/-- A grid index `j` is spectrally covered by one of the bands: the grid
wavenumber lies inside some band's closed `[band start, band end]` range. -/
def covered (bands : List (List Table)) (grid : List ℚ) (j : ℕ) : Prop :=
  ∃ band ∈ bands, ∃ t0, band.head? = some t0 ∧
    t0.bandStart ≤ grid.getD j 0 ∧ grid.getD j 0 ≤ t0.bandEnd

theorem absorption_loop_coverage (allBands : List (List Table))
    (temperature : ℚ) (grid : List ℚ) (interp : ℕ → ℕ → ℚ)
    (S : List (List Table)) (hg : grid.Sorted (· ≤ ·)) :
    ∀ (bands : List (List Table)) (b : ℕ) (cs : List ℚ)
      (claimed : List (ℕ × ℕ)),
      cs.length = grid.length →
      (∀ band ∈ bands, band ∈ S) →
      (∀ j, j < grid.length → cs.getD j 0 ≠ 0 → covered S grid j) →
      ((absorption_loop allBands temperature grid interp bands b cs
          claimed).length = grid.length ∧
        ∀ j, j < grid.length →
          (absorption_loop allBands temperature grid interp bands b cs
            claimed).getD j 0 ≠ 0 → covered S grid j)
  | [], _, cs, claimed, hlen, _, hinv => ⟨by simpa [absorption_loop] using hlen,
      by simpa [absorption_loop] using hinv⟩
  | band :: rest, b, cs, claimed, hlen, hsub, hinv => by
    match hband : band with
    | [] =>
      rw [absorption_loop]
      exact absorption_loop_coverage allBands temperature grid interp S hg
        rest (b + 1) cs claimed hlen (fun x hx => hsub x (List.mem_cons_of_mem _ hx))
        hinv
    | t0 :: ts =>
      rw [absorption_loop]
      by_cases hskip : t0.bandStart > grid.getLastD 0 ∨ t0.bandEnd < grid.headD 0
      · rw [if_pos hskip]
        exact absorption_loop_coverage allBands temperature grid interp S hg
          rest (b + 1) cs claimed hlen
          (fun x hx => hsub x (List.mem_cons_of_mem _ hx)) hinv
      · rw [if_neg hskip]
        by_cases hov : (resolve_overlap allBands temperature (t0 :: ts)
            (searchsorted_left grid t0.bandStart)
            (searchsorted_left grid t0.bandEnd) claimed 0).1
        · simp only [hov, if_true]
          apply absorption_loop_coverage allBands temperature grid interp S hg
            rest (b + 1) _ _ (by rw [write_slice_length, hlen])
            (fun x hx => hsub x (List.mem_cons_of_mem _ hx))
          intro j hj hne
          rw [write_slice_getD _ _ _ _ j (by rwa [hlen])] at hne
          by_cases hin : (resolve_overlap allBands temperature (t0 :: ts)
              (searchsorted_left grid t0.bandStart)
              (searchsorted_left grid t0.bandEnd) claimed 0).2 ≤ j ∧
              j < searchsorted_left grid t0.bandEnd
          · refine ⟨t0 :: ts, hsub _ (by simp), t0, rfl, ?_, ?_⟩
            · have hll : searchsorted_left grid t0.bandStart ≤ j :=
                le_trans (resolve_overlap_left_le allBands temperature
                  (t0 :: ts) _ _ claimed 0) hin.1
              have hch := lt_countP_iff_of_sorted
                (fun y => decide (y < t0.bandStart))
                (fun a c hac hc => by
                  simp only [decide_eq_true_eq] at hc ⊢
                  exact lt_of_le_of_lt hac hc)
                grid hg j hj
              rw [searchsorted_left] at hll
              have : ¬ (grid.get ⟨j, hj⟩ < t0.bandStart) := by
                intro hlt
                exact absurd (hch.mpr (by simpa using hlt)) (not_lt.mpr hll)
              rw [List.getD_eq_getElem _ _ hj]
              simpa using not_lt.mp this
            · have hch := lt_countP_iff_of_sorted
                (fun y => decide (y < t0.bandEnd))
                (fun a c hac hc => by
                  simp only [decide_eq_true_eq] at hc ⊢
                  exact lt_of_le_of_lt hac hc)
                grid hg j hj
              rw [searchsorted_left] at hin
              have := hch.mp hin.2
              rw [List.getD_eq_getElem _ _ hj]
              exact le_of_lt (by simpa using this)
          · rw [if_neg hin] at hne
            exact hinv j hj hne
        · simp only [hov, if_false]
          exact absorption_loop_coverage allBands temperature grid interp S hg
            rest (b + 1) cs claimed hlen
            (fun x hx => hsub x (List.mem_cons_of_mem _ hx)) hinv

/-- C10: every entry of `absorption_coefficient` is nonnegative, and every
entry whose grid wavenumber lies outside the closed `[band start, band end]`
range of EVERY band is exactly `0` (missing spectral coverage yields zero
absorption, not an error). -/
theorem absorption_coefficient_nonneg_and_zero_outside
    (bands : List (List Table)) (temperature : ℚ) (grid : List ℚ)
    (interp : ℕ → ℕ → ℚ) (hg : grid.Sorted (· ≤ ·)) (j : ℕ)
    (hj : j < grid.length) :
    0 ≤ (absorption_coefficient bands temperature grid interp).getD j 0 ∧
    ((∀ band ∈ bands, ∀ t0, band.head? = some t0 →
        grid.getD j 0 < t0.bandStart ∨ t0.bandEnd < grid.getD j 0) →
      (absorption_coefficient bands temperature grid interp).getD j 0 = 0) := by
  have hloop := absorption_loop_coverage bands temperature grid interp bands hg
    bands 0 (grid.map fun _ => 0) [] (by simp) (fun x hx => hx)
    (fun j' hj' hne => absurd (by
      rw [List.getD_eq_getElem _ _ (by simpa using hj')]
      simp) hne)
  set cs := absorption_loop bands temperature grid interp bands 0
    (grid.map fun _ => 0) [] with hcs
  have hlen : cs.length = grid.length := hloop.1
  have hj1 : j < ((cs.map fun x => if x < 0 then 0 else x).map
      fun x => x * (cm_to_m * cm_to_m)).length := by
    simpa [hlen] using hj
  constructor
  · rw [absorption_coefficient, ← hcs, List.getD_eq_getElem _ _ hj1]
    simp only [List.getElem_map]
    apply mul_nonneg
    · split
      · exact le_refl 0
      · next h => exact not_lt.mp h
    · norm_num [cm_to_m]
  · intro hmiss
    have hzero : cs.getD j 0 = 0 := by
      by_contra hne
      obtain ⟨band, hbmem, t0, ht0, hlow, hhigh⟩ := hloop.2 j hj hne
      rcases hmiss band hbmem t0 ht0 with h | h
      · exact absurd hlow (not_le.mpr h)
      · exact absurd hhigh (not_le.mpr h)
    rw [absorption_coefficient, ← hcs, List.getD_eq_getElem _ _ hj1]
    simp only [List.getElem_map]
    rw [List.getD_eq_getElem _ _ (by simpa [hlen] using hj)] at hzero
    rw [hzero]
    simp

/-- C10 witness data: a single band entirely above the two-point grid. -/
def outside_band_table : Table :=
  { temperature := 250, pressure := 1, bandStart := 2, bandEnd := 3
    sampleCount := 5 }

/-- C10 witness: at a sorted two-point grid entirely below the single
band, the first entry is nonnegative and zero. -/
theorem absorption_coefficient_nonneg_and_zero_outside_witness :
    ([(0 : ℚ), 1].Sorted (· ≤ ·) ∧ 0 < ([(0 : ℚ), 1]).length) ∧
    (0 ≤ (absorption_coefficient [[outside_band_table]] 300 [0, 1]
        (fun _ _ => 1)).getD 0 0 ∧
      ((∀ band ∈ [[outside_band_table]], ∀ t0, band.head? = some t0 →
          ([(0 : ℚ), 1]).getD 0 0 < t0.bandStart ∨
            t0.bandEnd < ([(0 : ℚ), 1]).getD 0 0) →
        (absorption_coefficient [[outside_band_table]] 300 [0, 1]
          (fun _ _ => 1)).getD 0 0 = 0)) :=
  ⟨⟨by norm_num, by norm_num⟩,
    absorption_coefficient_nonneg_and_zero_outside [[outside_band_table]] 300
      [0, 1] (fun _ _ => 1) (by norm_num) 0 (by norm_num)⟩

end cross_sections

end Pylbl
